import Mathlib

/-!
Verification development for the react-hook-form-ai repository.

The repository is a thin TypeScript glue layer: a provider resolver
(src/AIFormProvider.tsx), a two-tier suggestion/autofill engine over the
Chrome built-in language model and an HTTP fallback server
(src/utils/useAIAssistant.ts), an availability probe, and a per-field
debounce layer in the enhanced useForm hook (src/useForm.ts).

This file gives a shallow embedding of that code.  The asynchronous
provider calls are modelled by quantifying over a response environment and
recording an attempt trace; the await-sequenced source code is embedded as
sequential Lean code, so the order of the recorded attempts is the order in
which the source awaits them.  JavaScript strings are modelled as Lean
strings and string truthiness (null / empty-string falsy) is made explicit.
-/

namespace ReactHookFormAI

/-- The closed enumeration of AI provider types (src/types/ai.ts,
`AIProviderType`). -/
inductive AIProviderType
  | chrome
  | openai
  | custom
  | browser
  deriving DecidableEq, Repr

/-- A provider descriptor (src/types/ai.ts, `AIProviderConfig`): a type tag,
an optional enabled flag, optional credential / url / model fields (carried
but never read by the resolver) and an optional priority. -/
structure AIProvider where
  type : AIProviderType
  enabled : Option Bool := none
  apiKey : Option String := none
  apiUrl : Option String := none
  model : Option String := none
  priority : Option Int := none
  deriving DecidableEq, Repr

/-- `p.priority || 0` from the sort comparator in src/AIFormProvider.tsx line
32: a missing priority defaults to 0 (and a present priority 0 stays 0, so
JavaScript's falsy-or coincides with `getD 0`). -/
def effPriority (p : AIProvider) : Int :=
  p.priority.getD 0

/-- The order the comparator `(b.priority || 0) - (a.priority || 0)` sorts
by: `a` may come before `b` exactly when `b`'s effective priority is at most
`a`'s (descending priorities). -/
def providerDescOrder (a b : AIProvider) : Prop :=
  effPriority b ≤ effPriority a

instance : DecidableRel providerDescOrder :=
  fun a b => inferInstanceAs (Decidable (effPriority b ≤ effPriority a))

instance : IsTotal AIProvider providerDescOrder :=
  ⟨fun a b => le_total (effPriority b) (effPriority a)⟩

instance : IsTrans AIProvider providerDescOrder :=
  ⟨fun _ _ _ hab hbc => le_trans hbc hab⟩

/-- The enabled filter of src/AIFormProvider.tsx line 31: keep providers with
`enabled !== false` (an absent flag counts as enabled). -/
def enabledFilter (providers : List AIProvider) : List AIProvider :=
  providers.filter (fun p => decide (p.enabled ≠ some false))

/-- The default execution order (src/AIFormProvider.tsx lines 30-33): filter
to enabled providers, stable-sort by priority descending, and project to the
type field.  JavaScript's Array.prototype.sort is stable, so the stable
insertion sort is a faithful model of it under this total preorder. -/
def defaultOrder (providers : List AIProvider) : List AIProviderType :=
  (List.insertionSort providerDescOrder (enabledFilter providers)).map AIProvider.type

/-- `sortedProviders` (src/AIFormProvider.tsx lines 25-34): a non-empty
explicit execution order is returned unchanged; otherwise the default order
is computed from the provider list. -/
def sortedProviders (providers : List AIProvider)
    (executionOrder : Option (List AIProviderType)) : List AIProviderType :=
  match executionOrder with
  | some order => if order.length > 0 then order else defaultOrder providers
  | none => defaultOrder providers

/-! ## The suggestion / autofill engine (src/utils/useAIAssistant.ts) -/

/-- Which provider a call attempted, in order of attempt. -/
inductive ProviderAttempt
  | chrome
  | server
  deriving DecidableEq, Repr

/-- The options object read by useAIAssistant (src/types/form.ts lines 35-39,
`AIAssistantOptions`): only `enabled`, `formContext` and `apiUrl` exist.
Form-context entries are modelled as string key/value pairs. -/
structure AIAssistantOptions where
  enabled : Bool := true
  formContext : List (String × String) := []
  apiUrl : String := "http://localhost:3001"
  deriving DecidableEq, Repr

/-- The argument object useForm builds for useAIAssistant (src/useForm.ts
lines 149-156): besides the three declared fields it also carries
`providers`, `executionOrder` and `fallbackOnError`. -/
structure UseAIAssistantArgs where
  enabled : Bool
  formContext : List (String × String)
  apiUrl : String
  providers : Option (List AIProvider)
  executionOrder : Option (List AIProviderType)
  fallbackOnError : Bool

/-- The parameter destructuring of useAIAssistant (src/utils/useAIAssistant.ts
lines 7-11) binds only `enabled`, `formContext` and `apiUrl`; every other
property of the argument object is dropped. -/
def readAssistantOptions (a : UseAIAssistantArgs) : AIAssistantOptions :=
  AIAssistantOptions.mk a.enabled a.formContext a.apiUrl

/-- What the HTTP fallback hands back for an autofill call: the runtime value
of `data.suggestion || data.autofillData` may be a string or an already
parsed object (src/utils/useAIAssistant.ts lines 188-192 handle both). -/
inductive ServerValue
  | str (s : String)
  | obj (o : List (String × String))
  deriving DecidableEq, Repr

/-- The external collaborators of the engine as response functions.  `chrome`
is the net result of `useChromeAI` on a prompt (`none` models every way it
returns null: capability absent, availability unavailable, or any thrown
error, lines 22-66).  `serverSuggest` and `serverAutofill` are the net
results of `useServerAI` on the two endpoints for the posted body (`none`
models a network error, a non-2xx status, or a response without the expected
fields, lines 72-93). -/
structure AIEnv where
  chrome : String → Option String
  serverSuggest : String → String → List (String × String) → Option String
  serverAutofill : List String → List (String × String) → Option ServerValue

/-- JavaScript truthiness of a string-or-null result: null and the empty
string are falsy. -/
def truthy : Option String → Bool
  | none => false
  | some s => s != ""

/-- ASCII whitespace, the fragment of JavaScript's trim relevant here. -/
def isJsWs (c : Char) : Bool :=
  c == ' ' || c == '\t' || c == '\n' || c == '\r'

/-- Models String.prototype.trim: drop whitespace from both ends. -/
def jsTrimList (cs : List Char) : List Char :=
  ((cs.dropWhile isJsWs).reverse.dropWhile isJsWs).reverse

/-- The two quote characters of the cleanup regex on line 130: the double
quote (code 34) and the single quote (code 39). -/
def isQuoteChar (c : Char) : Bool :=
  c.toNat == 34 || c.toNat == 39

/-- Drop one leading quote character if present. -/
def dropLeadingQuote : List Char → List Char
  | [] => []
  | c :: cs => if isQuoteChar c then cs else c :: cs

/-- Drop one trailing quote character if present. -/
def dropTrailingQuote (cs : List Char) : List Char :=
  (dropLeadingQuote cs.reverse).reverse

/-- Models the global replace of the anchored quote regex on line 130: the
anchors make it remove at most one leading and at most one trailing quote
character, nothing else. -/
def stripQuotesList (cs : List Char) : List Char :=
  dropTrailingQuote (dropLeadingQuote cs)

/-- `result.trim().replace(...)` from src/utils/useAIAssistant.ts line 130. -/
def cleanupSuggestion (s : String) : String :=
  String.mk (stripQuotesList (jsTrimList s.data))

/-- Models JSON.stringify of the form-context record inside a prompt.  The
exact pretty-printed shape is irrelevant: every theorem below quantifies over
the environment consuming the prompt. -/
def serializeContext (ctx : List (String × String)) : String :=
  String.join (ctx.map (fun kv => kv.1 ++ ":" ++ kv.2 ++ ";"))

/-- The suggestion prompt of lines 102-115 (template abbreviated; the
embedded field name, current value and serialized context are what vary). -/
def suggestPrompt (name value : String) (ctx : List (String × String)) : String :=
  "You are assisting with form completion. The user is filling out a field named "
    ++ name ++ ". Current value: " ++ value
    ++ ". Form context: " ++ serializeContext ctx
    ++ ". Respond with ONLY the suggested value. Suggested value:"

/-- `suggestValue` (src/utils/useAIAssistant.ts lines 98-137), paired with
the trace of provider attempts in the order the source awaits them:
disabled returns null at once; otherwise the chrome client is awaited, and
only if its result is falsy is the server client awaited; a truthy final
result is cleaned up, otherwise null is returned. -/
def suggestValueRun (opts : AIAssistantOptions) (env : AIEnv)
    (name value : String) : Option String × List ProviderAttempt :=
  if opts.enabled = false then (none, [])
  else
    let r1 := env.chrome (suggestPrompt name value opts.formContext)
    if truthy r1 then
      (some (cleanupSuggestion (r1.getD "")), [ProviderAttempt.chrome])
    else
      let r2 := env.serverSuggest name value opts.formContext
      if truthy r2 then
        (some (cleanupSuggestion (r2.getD "")),
          [ProviderAttempt.chrome, ProviderAttempt.server])
      else (none, [ProviderAttempt.chrome, ProviderAttempt.server])

/-- The opening brace character, code 123. -/
def openBrace : Char := Char.ofNat 123

/-- The closing brace character, code 125. -/
def closeBrace : Char := Char.ofNat 125

/-- The greedy brace-block regex match on line 170 (open brace, any
characters, close brace, greedy): leftmost-longest matching makes the match
run from the first opening brace (code 123) to the last closing brace
(code 125).  Dropping the characters before the first opening brace and the
characters after the last closing brace yields that segment; a match exists
exactly when the segment has both its braces, i.e. length at least 2. -/
def extractBraceBlock (cs : List Char) : Option (List Char) :=
  let tail := cs.dropWhile (fun c => !(c.toNat == 123))
  let trimmed := (tail.reverse.dropWhile (fun c => !(c.toNat == 125))).reverse
  if 2 ≤ trimmed.length then some trimmed else none

/-- Drop leading whitespace (JSON inter-token whitespace). -/
def skipWsChars (cs : List Char) : List Char :=
  cs.dropWhile isJsWs

/-- Parse one JSON string literal without escape sequences: a double quote,
content free of quotes and backslashes (code 92), a closing double quote.
Returns the content and the remainder. -/
def parseJsonString : List Char → Option (String × List Char)
  | [] => none
  | c :: cs =>
    if c.toNat == 34 then
      let content := cs.takeWhile (fun d => !(d.toNat == 34) && !(d.toNat == 92))
      match cs.dropWhile (fun d => !(d.toNat == 34) && !(d.toNat == 92)) with
      | d :: rest => if d.toNat == 34 then some (String.mk content, rest) else none
      | [] => none
    else none

/-- Parse the members of a flat JSON object after the opening brace:
`"key" : "value"` pairs separated by commas (code 44) and closed by a
closing brace (code 125).  Fuel-bounded recursion on the remaining input. -/
def parseMembers : Nat → List Char → Option (List (String × String) × List Char)
  | 0, _ => none
  | Nat.succ fuel, cs =>
    match parseJsonString (skipWsChars cs) with
    | none => none
    | some (k, rest1) =>
      match skipWsChars rest1 with
      | [] => none
      | c :: rest2 =>
        if c.toNat == 58 then
          match parseJsonString (skipWsChars rest2) with
          | none => none
          | some (v, rest3) =>
            match skipWsChars rest3 with
            | [] => none
            | d :: rest4 =>
              if d.toNat == 44 then
                match parseMembers fuel rest4 with
                | some (ms, rest5) => some ((k, v) :: ms, rest5)
                | none => none
              else if d.toNat == 125 then some ([(k, v)], rest4)
              else none
        else none

/-- Models JSON.parse restricted to the payloads this library consumes from
its providers: a flat object of string keys to string values with no escape
sequences and no trailing garbage.  Anything else yields `none`, exactly the
inputs on which the source treats the provider answer as unusable (a
JSON.parse exception or a non-object result, lines 171-179 and 189-199). -/
def parseFlatJsonObject (cs : List Char) : Option (List (String × String)) :=
  match skipWsChars cs with
  | [] => none
  | c :: rest =>
    if c.toNat == 123 then
      match skipWsChars rest with
      | [] => none
      | d :: rest2 =>
        if d.toNat == 125 then
          if (skipWsChars rest2).isEmpty then some [] else none
        else
          match parseMembers (rest.length + 1) rest with
          | some (ms, rest3) => if (skipWsChars rest3).isEmpty then some ms else none
          | none => none
    else none

/-- The chrome branch of autofill (lines 167-180): on a truthy response,
extract the brace block and parse it; `none` on a falsy response, a missing
match, or unusable JSON (in the source those cases fall through to the
server). -/
def autofillChromeParse (r : Option String) : Option (List (String × String)) :=
  if truthy r then
    match extractBraceBlock (r.getD "").data with
    | some cs => parseFlatJsonObject cs
    | none => none
  else none

/-- JavaScript truthiness of the server autofill result: null and the empty
string are falsy, every object (even an empty one) is truthy. -/
def truthyServer : Option ServerValue → Bool
  | none => false
  | some (ServerValue.str s) => s != ""
  | some (ServerValue.obj _) => true

/-- The server branch of autofill (lines 188-200): a truthy string response
is parsed as JSON, an object response is used as is; `none` when the
response is falsy or unusable (in the source those cases fall through to the
mock mapping). -/
def autofillServerParse (r : Option ServerValue) : Option (List (String × String)) :=
  match r with
  | none => none
  | some (ServerValue.str s) => if s != "" then parseFlatJsonObject s.data else none
  | some (ServerValue.obj o) => some o

/-- The autofill prompt of lines 150-161 (template abbreviated; the embedded
field list and serialized context are what vary). -/
def autofillPrompt (fields : List String) (ctx : List (String × String)) : String :=
  "You are an intelligent form assistant. Generate realistic example values for a form. Form fields: "
    ++ String.intercalate ", " fields
    ++ ". Context: " ++ serializeContext ctx
    ++ ". Output ONLY a valid JSON object with these exact field names as keys. JSON object:"

/-- `autofill` (src/utils/useAIAssistant.ts lines 142-204), paired with the
attempt trace: disabled returns the fixed disabled mapping at once;
otherwise the chrome branch is awaited, and only if it fails to produce an
object is the server branch awaited; if both fail, the mock mapping
`Example_` + field name is returned.  `Object.fromEntries` over the mapped
pairs is modelled as the association list of those pairs. -/
def autofillRun (opts : AIAssistantOptions) (env : AIEnv) (fields : List String) :
    List (String × String) × List ProviderAttempt :=
  if opts.enabled = false then
    (fields.map (fun f => (f, "AI disabled")), [])
  else
    match autofillChromeParse (env.chrome (autofillPrompt fields opts.formContext)) with
    | some o => (o, [ProviderAttempt.chrome])
    | none =>
      match autofillServerParse (env.serverAutofill fields opts.formContext) with
      | some o => (o, [ProviderAttempt.chrome, ProviderAttempt.server])
      | none =>
          (fields.map (fun f => (f, "Example_" ++ f)),
            [ProviderAttempt.chrome, ProviderAttempt.server])

/-! ## The availability check (src/utils/useAIAssistant.ts lines 209-238) -/

/-- The four results of the `LanguageModel.availability()` probe
(src/types/chrome-ai.d.ts). -/
inductive Availability
  | readily
  | downloadable
  | downloading
  | unavailable
  deriving DecidableEq, Repr

/-- The probe result as the status string the source stores. -/
def Availability.toStatusString : Availability → String
  | readily => "readily"
  | downloadable => "downloadable"
  | downloading => "downloading"
  | unavailable => "unavailable"

/-- Environment for checkAvailability: whether `window` and the
`LanguageModel` capability are present, and what the availability probe does
(`none` models the probe throwing). -/
structure ChromeEnv where
  languageModelPresent : Bool
  probe : Option Availability
  deriving DecidableEq, Repr

/-- The record checkAvailability returns. -/
structure AvailabilityStatus where
  available : Bool
  status : String
  needsDownload : Bool
  deriving DecidableEq, Repr

/-- `checkAvailability` (src/utils/useAIAssistant.ts lines 209-238): a fixed
unavailable record when the capability is absent, a fixed error record when
the probe throws, and otherwise the probed status with `available` true iff
the probe result is not unavailable and `needsDownload` true iff it is
downloadable. -/
def checkAvailability (env : ChromeEnv) : AvailabilityStatus :=
  if env.languageModelPresent = false then
    AvailabilityStatus.mk false "unavailable" false
  else
    match env.probe with
    | none => AvailabilityStatus.mk false "error" false
    | some a =>
        AvailabilityStatus.mk (decide (a ≠ Availability.unavailable))
          a.toStatusString (decide (a = Availability.downloadable))

/-! ## The debounce layer (src/useForm.ts)

`registerWithAI` (lines 201-251) wraps the blur handler: it cancels the
field's pending timer and schedules a new one `debounceMs` later whose
callback dispatches a suggestValue call when the blur value is truthy and
non-whitespace.  The unmount cleanup (lines 164-168) cancels every pending
timer.  The layer is modelled as a small event simulator over an explicit
table of pending timers; the call log records every suggestValue dispatch
with its fire time. -/

/-- A pending debounce timer: its field, the absolute time at which it
fires, and the blur value its callback will read.  (The callback reads
`e.target.value` at fire time; in this model the field's value only changes
through blur events, each of which replaces the pending timer, so the value
captured at scheduling time is the value read at fire time.) -/
structure TimerEntry where
  field : String
  fireAt : Nat
  value : String
  deriving DecidableEq, Repr

/-- Simulator state: the table of pending timers plus the log of dispatched
suggestValue calls (fire time, field, value). -/
structure SimState where
  timers : List TimerEntry
  calls : List (Nat × String × String)
  deriving DecidableEq, Repr

/-- The initial state of a fresh form session: no timers, no calls. -/
def initState : SimState := SimState.mk [] []

/-- The clearTimeout of src/useForm.ts lines 219-220: remove this field's
pending timer, leaving every other field's entry untouched. -/
def clearField (f : String) (ts : List TimerEntry) : List TimerEntry :=
  ts.filter (fun t => decide (t.field ≠ f))

/-- The blur handler of registerWithAI (lines 214-244): cancel the field's
pending timer and schedule a replacement that fires `debounceMs` after the
event. -/
def handleBlur (ms now : Nat) (f v : String) (s : SimState) : SimState :=
  SimState.mk (clearField f s.timers ++ [TimerEntry.mk f (now + ms) v]) s.calls

/-- The body of the timer callback (lines 223-241): the suggestValue
dispatch it produces, if any — the callback only calls the engine when the
value is truthy and non-whitespace (`value && value.trim().length > 0`). -/
def timerDispatch (t : TimerEntry) : Option (Nat × String × String) :=
  if t.value != "" && String.mk (jsTrimList t.value.data) != "" then
    some (t.fireAt, t.field, t.value)
  else none

/-- Timers fire in fire-time order; the stable sort keeps scheduling order
on equal fire times, as the event loop does. -/
def timerFireOrder (a b : TimerEntry) : Prop :=
  a.fireAt ≤ b.fireAt

instance : DecidableRel timerFireOrder :=
  fun a b => inferInstanceAs (Decidable (a.fireAt ≤ b.fireAt))

/-- Advance time to the instant `now`: every timer due strictly before `now`
fires (in fire-time order) and leaves the table; its dispatch, if any, is
appended to the call log. -/
def fireDue (now : Nat) (s : SimState) : SimState :=
  SimState.mk
    (s.timers.filter (fun t => !decide (t.fireAt < now)))
    (s.calls ++ (List.insertionSort timerFireOrder
      (s.timers.filter (fun t => decide (t.fireAt < now)))).filterMap timerDispatch)

/-- The unmount cleanup of src/useForm.ts lines 164-168: every pending timer
is cancelled (clearTimeout on each handle, then Map.clear) without firing;
the call log is untouched. -/
def handleUnmount (s : SimState) : SimState :=
  SimState.mk [] s.calls

/-- The externally visible events driving the debounce layer, each stamped
with its absolute time. -/
inductive FormEvent
  | blur (time : Nat) (field value : String)
  | unmount (time : Nat)
  deriving DecidableEq, Repr

/-- Process one event: let time advance to the event's instant, then apply
the event's handler. -/
def stepEvent (ms : Nat) (s : SimState) (e : FormEvent) : SimState :=
  match e with
  | FormEvent.blur t f v => handleBlur ms t f v (fireDue t s)
  | FormEvent.unmount t => handleUnmount (fireDue t s)

/-- Run a time-ordered event list from the initial state. -/
def runEvents (ms : Nat) (events : List FormEvent) : SimState :=
  events.foldl (stepEvent ms) initState

/-- Run the events and then let every still-pending timer fire ("no further
events" until every pending quiet period elapses). -/
def runToEnd (ms : Nat) (events : List FormEvent) : SimState :=
  SimState.mk []
    ((runEvents ms events).calls ++
      (List.insertionSort timerFireOrder (runEvents ms events).timers).filterMap timerDispatch)

/-- The timer table holds at most one pending timer per field name. -/
def TableOK (s : SimState) : Prop :=
  (s.timers.map TimerEntry.field).Nodup

/-! ## Shared lemmas about the engine traces -/

/-- The attempt trace of suggestValue is determined by the enabled flag and
the truthiness of the chrome response: nothing when disabled, chrome alone
on a truthy chrome answer, chrome then server otherwise. -/
theorem suggestValueRun_trace (opts : AIAssistantOptions) (env : AIEnv)
    (name value : String) :
    (suggestValueRun opts env name value).2 =
      if opts.enabled = false then []
      else if truthy (env.chrome (suggestPrompt name value opts.formContext)) then
        [ProviderAttempt.chrome]
      else [ProviderAttempt.chrome, ProviderAttempt.server] := by
  unfold suggestValueRun
  by_cases h : opts.enabled = false
  · simp [h]
  · by_cases h2 : truthy (env.chrome (suggestPrompt name value opts.formContext))
    · simp [h, h2]
    · by_cases h3 : truthy (env.serverSuggest name value opts.formContext) <;>
        simp [h, h2, h3]

/-- The attempt trace of autofill is determined by the enabled flag and
whether the chrome branch produced an object. -/
theorem autofillRun_trace (opts : AIAssistantOptions) (env : AIEnv)
    (fields : List String) :
    (autofillRun opts env fields).2 =
      if opts.enabled = false then []
      else
        match autofillChromeParse (env.chrome (autofillPrompt fields opts.formContext)) with
        | some _ => [ProviderAttempt.chrome]
        | none =>
          match autofillServerParse (env.serverAutofill fields opts.formContext) with
          | some _ => [ProviderAttempt.chrome, ProviderAttempt.server]
          | none => [ProviderAttempt.chrome, ProviderAttempt.server] := by
  unfold autofillRun
  by_cases h : opts.enabled = false
  · simp [h]
  · simp only [h, if_false]
    rcases autofillChromeParse (env.chrome (autofillPrompt fields opts.formContext)) with _ | o
    · rcases autofillServerParse (env.serverAutofill fields opts.formContext) with _ | o2 <;> simp
    · simp

/-- An environment in which every provider fails; used to instantiate
universally quantified theorems at a concrete input. -/
def emptyEnv : AIEnv :=
  AIEnv.mk (fun _ => none) (fun _ _ _ => none) (fun _ _ => none)

/-- An environment in which the chrome model answers every prompt with the
fixed text `ok`; used to instantiate theorems at a concrete input. -/
def chromeOkEnv : AIEnv :=
  AIEnv.mk (fun _ => some "ok") (fun _ _ _ => none) (fun _ _ => none)

/-! ## C10 -/

/-- C10: checkAvailability never throws: when the local language-model
capability is absent it returns exactly
`{available: false, status: "unavailable", needsDownload: false}`; when the
availability probe itself throws it returns
`{available: false, status: "error", needsDownload: false}`; otherwise it
returns the probed status string with `available` true iff the probe result
is not `unavailable` and `needsDownload` true iff the probe result is
`downloadable`.  (The function is total by construction, so no case can
throw.) -/
theorem checkAvailability_total (env : ChromeEnv) :
    (env.languageModelPresent = false →
      checkAvailability env = AvailabilityStatus.mk false "unavailable" false) ∧
    (env.languageModelPresent = true → env.probe = none →
      checkAvailability env = AvailabilityStatus.mk false "error" false) ∧
    (∀ a, env.languageModelPresent = true → env.probe = some a →
      checkAvailability env =
        AvailabilityStatus.mk (decide (a ≠ Availability.unavailable))
          a.toStatusString (decide (a = Availability.downloadable))) := by
  refine ⟨fun h => ?_, fun h hp => ?_, fun a h hp => ?_⟩
  · simp [checkAvailability, h]
  · simp [checkAvailability, h, hp]
  · simp [checkAvailability, h, hp]

/-- Witness for C10 at a concrete environment: capability absent. -/
theorem checkAvailability_total_witness :
    checkAvailability (ChromeEnv.mk false none) =
      AvailabilityStatus.mk false "unavailable" false :=
  (checkAvailability_total (ChromeEnv.mk false none)).1 rfl

/-! ## C7 -/

/-- C7: disabled short-circuit: for every field name, value and field list,
when AI is disabled suggestValue returns null immediately with no provider
attempt, and autofill returns the mapping sending each requested field to
the fixed marker string `AI disabled` with no provider attempt.  Both
functions are total, so neither case can throw. -/
theorem disabled_short_circuit (opts : AIAssistantOptions) (env : AIEnv)
    (name value : String) (fields : List String)
    (hdis : opts.enabled = false) :
    suggestValueRun opts env name value = (none, []) ∧
    autofillRun opts env fields = (fields.map (fun f => (f, "AI disabled")), []) := by
  constructor <;> simp [suggestValueRun, autofillRun, hdis]

/-- Witness for C7 at a concrete disabled configuration. -/
theorem disabled_short_circuit_witness :
    suggestValueRun (AIAssistantOptions.mk false [] "http://localhost:3001")
        emptyEnv "email" "foo" = (none, []) ∧
    autofillRun (AIAssistantOptions.mk false [] "http://localhost:3001")
        emptyEnv ["name", "email"] =
      ([("name", "AI disabled"), ("email", "AI disabled")], []) :=
  disabled_short_circuit (AIAssistantOptions.mk false [] "http://localhost:3001")
    emptyEnv "email" "foo" ["name", "email"] rfl

/-! ## C6 -/

/-- C6: provider precedence and sequencing.  The source awaits the chrome
attempt and only then, on a falsy result, awaits the server; the embedding
is sequential in the same order, so the attempt trace records that order.
First conjunct: whenever a remote request is issued at all, the trace is
exactly chrome followed by server — the local attempt has completed
(success or failure) strictly before the remote request.  Second conjunct:
whenever the local model returns a non-null, non-empty result, the remote
fallback is never invoked. -/
theorem suggestValue_provider_precedence (opts : AIAssistantOptions)
    (env : AIEnv) (name value : String) :
    (ProviderAttempt.server ∈ (suggestValueRun opts env name value).2 →
      (suggestValueRun opts env name value).2 =
        [ProviderAttempt.chrome, ProviderAttempt.server]) ∧
    (∀ r, opts.enabled = true →
      env.chrome (suggestPrompt name value opts.formContext) = some r → r ≠ "" →
      (suggestValueRun opts env name value).2 = [ProviderAttempt.chrome]) := by
  constructor
  · intro hmem
    rw [suggestValueRun_trace] at hmem ⊢
    by_cases h : opts.enabled = false
    · simp [h] at hmem
    · by_cases h2 : truthy (env.chrome (suggestPrompt name value opts.formContext))
      · simp [h, h2] at hmem
      · simp [h, h2]
  · intro r hen hc hr
    rw [suggestValueRun_trace]
    have h2 : truthy (env.chrome (suggestPrompt name value opts.formContext)) = true := by
      rw [hc]
      simpa [truthy] using hr
    simp [hen, h2]

/-- Witness for C6 at a concrete input: the chrome model answers, so the
trace is the local attempt alone. -/
theorem suggestValue_provider_precedence_witness :
    (suggestValueRun (AIAssistantOptions.mk true [] "http://localhost:3001")
        chromeOkEnv "email" "foo").2 = [ProviderAttempt.chrome] :=
  (suggestValue_provider_precedence (AIAssistantOptions.mk true [] "http://localhost:3001")
    chromeOkEnv "email" "foo").2 "ok" rfl rfl (by decide)

/-! ## C2 -/

/-- C2: the suggestion/autofill engine ignores the configured provider list
and execution order.  useAIAssistant's options object has only `enabled`,
`formContext` and `apiUrl` (src/types/form.ts lines 35-39), so the
destructuring drops the `providers`, `executionOrder` and `fallbackOnError`
values useForm passes (src/useForm.ts lines 149-156): two argument objects
agreeing on the three declared fields are read identically, and hence drive
identical suggestValue and autofill runs, whatever their provider
configuration.  Moreover, for every configuration and environment, when AI
is enabled the attempt order is always chrome first and, at most, the
remote server second — in particular for an explicit order putting the
remote provider first or omitting the local provider. -/
theorem assistant_ignores_provider_config (a b : UseAIAssistantArgs)
    (he : a.enabled = b.enabled) (hc : a.formContext = b.formContext)
    (hu : a.apiUrl = b.apiUrl) :
    readAssistantOptions a = readAssistantOptions b ∧
    (∀ env name value,
      suggestValueRun (readAssistantOptions a) env name value =
        suggestValueRun (readAssistantOptions b) env name value) ∧
    (∀ env fields,
      autofillRun (readAssistantOptions a) env fields =
        autofillRun (readAssistantOptions b) env fields) ∧
    (a.enabled = true →
      (∀ env name value,
        (suggestValueRun (readAssistantOptions a) env name value).2 =
            [ProviderAttempt.chrome] ∨
        (suggestValueRun (readAssistantOptions a) env name value).2 =
            [ProviderAttempt.chrome, ProviderAttempt.server]) ∧
      (∀ env fields,
        (autofillRun (readAssistantOptions a) env fields).2 =
            [ProviderAttempt.chrome] ∨
        (autofillRun (readAssistantOptions a) env fields).2 =
            [ProviderAttempt.chrome, ProviderAttempt.server])) := by
  have hro : readAssistantOptions a = readAssistantOptions b := by
    unfold readAssistantOptions
    rw [he, hc, hu]
  refine ⟨hro, fun env name value => by rw [hro], fun env fields => by rw [hro], ?_⟩
  intro hen
  constructor
  · intro env name value
    rw [suggestValueRun_trace]
    have : (readAssistantOptions a).enabled = true := hen
    by_cases h2 : truthy (env.chrome
        (suggestPrompt name value (readAssistantOptions a).formContext))
    · left
      simp [this, h2]
    · right
      simp [this, h2]
  · intro env fields
    rw [autofillRun_trace]
    have : (readAssistantOptions a).enabled = true := hen
    rcases autofillChromeParse
        (env.chrome (autofillPrompt fields (readAssistantOptions a).formContext)) with _ | o
    · right
      rcases autofillServerParse
          (env.serverAutofill fields (readAssistantOptions a).formContext) with _ | o2 <;>
        simp [this]
    · left
      simp [this]

/-- Witness for C2: two argument objects differing only in providers,
execution order and fallback flag are read identically. -/
theorem assistant_ignores_provider_config_witness :
    readAssistantOptions
        (UseAIAssistantArgs.mk true [] "http://localhost:3001"
          (some [AIProvider.mk AIProviderType.custom none none none none (some 10)])
          (some [AIProviderType.custom, AIProviderType.chrome]) false) =
      readAssistantOptions
        (UseAIAssistantArgs.mk true [] "http://localhost:3001" none none true) :=
  (assistant_ignores_provider_config
    (UseAIAssistantArgs.mk true [] "http://localhost:3001"
      (some [AIProvider.mk AIProviderType.custom none none none none (some 10)])
      (some [AIProviderType.custom, AIProviderType.chrome]) false)
    (UseAIAssistantArgs.mk true [] "http://localhost:3001" none none true)
    rfl rfl rfl).1

/-! ## C9 -/

/-- dropWhile over an append whose left part satisfies the predicate
everywhere skips the whole left part. -/
theorem dropWhile_append_of_all {α : Type} {p : α → Bool} :
    ∀ {pre : List α} (rest : List α), (∀ c ∈ pre, p c = true) →
      (pre ++ rest).dropWhile p = rest.dropWhile p
  | [], _, _ => rfl
  | c :: pre, rest, h => by
    have hc : p c = true := h c (List.mem_cons_self c pre)
    simp only [List.cons_append, List.dropWhile_cons, hc, if_true]
    exact dropWhile_append_of_all rest (fun d hd => h d (List.mem_cons_of_mem c hd))

/-- dropWhile leaves a list alone when its head falsifies the predicate. -/
theorem dropWhile_of_head_neg {α : Type} {p : α → Bool} {l : List α}
    (h : ∀ d, l.head? = some d → p d = false) : l.dropWhile p = l := by
  cases l with
  | nil => rfl
  | cons c cs => simp [List.dropWhile_cons, h c rfl]

theorem dropLeadingQuote_of_quote {c : Char} (m : List Char)
    (h : isQuoteChar c = true) : dropLeadingQuote (c :: m) = m := by
  simp [dropLeadingQuote, h]

theorem dropLeadingQuote_of_not_quote {m : List Char}
    (h : ∀ d, m.head? = some d → isQuoteChar d = false) : dropLeadingQuote m = m := by
  cases m with
  | nil => rfl
  | cons c cs => simp [dropLeadingQuote, h c rfl]

theorem dropTrailingQuote_append_quote {c : Char} (m : List Char)
    (h : isQuoteChar c = true) : dropTrailingQuote (m ++ [c]) = m := by
  simp only [dropTrailingQuote, List.reverse_append, List.reverse_cons, List.reverse_nil,
    List.nil_append, List.cons_append]
  rw [dropLeadingQuote_of_quote _ h, List.reverse_reverse]

theorem dropTrailingQuote_of_not_quote {m : List Char}
    (h : ∀ d, m.getLast? = some d → isQuoteChar d = false) : dropTrailingQuote m = m := by
  unfold dropTrailingQuote
  rw [dropLeadingQuote_of_not_quote, List.reverse_reverse]
  intro d hd
  exact h d (by rwa [List.head?_reverse] at hd)

/-- C9: suggestion post-processing.  First two conjuncts: the value handed
back to the caller for a non-empty provider answer (from either provider)
is exactly `cleanupSuggestion` of that answer, i.e. trim then un-quote.
Third conjunct: trimming strips exactly the surrounding whitespace.
Remaining conjuncts: the quote stripping removes exactly one leading and
one trailing quote character when present — a full single layer, only the
leading one, only the trailing one, or nothing — leaving the inner text,
including inner quotes and additional quote layers, untouched. -/
theorem suggestion_postprocessing :
    (∀ opts env name value r, opts.enabled = true →
      env.chrome (suggestPrompt name value opts.formContext) = some r → r ≠ "" →
      (suggestValueRun opts env name value).1 = some (cleanupSuggestion r)) ∧
    (∀ opts env name value r, opts.enabled = true →
      truthy (env.chrome (suggestPrompt name value opts.formContext)) = false →
      env.serverSuggest name value opts.formContext = some r → r ≠ "" →
      (suggestValueRun opts env name value).1 = some (cleanupSuggestion r)) ∧
    (∀ ws₁ core ws₂ : List Char,
      (∀ c ∈ ws₁, isJsWs c = true) → (∀ c ∈ ws₂, isJsWs c = true) →
      (∀ d, core.head? = some d → isJsWs d = false) →
      (∀ d, core.getLast? = some d → isJsWs d = false) →
      jsTrimList (ws₁ ++ core ++ ws₂) = core) ∧
    (∀ c₁ c₂ (m : List Char), isQuoteChar c₁ = true → isQuoteChar c₂ = true →
      stripQuotesList (c₁ :: (m ++ [c₂])) = m) ∧
    (∀ c (m : List Char), isQuoteChar c = true →
      (∀ d, m.getLast? = some d → isQuoteChar d = false) →
      stripQuotesList (c :: m) = m) ∧
    (∀ c (m : List Char), isQuoteChar c = true →
      (∀ d, m.head? = some d → isQuoteChar d = false) →
      stripQuotesList (m ++ [c]) = m) ∧
    (∀ m : List Char,
      (∀ d, m.head? = some d → isQuoteChar d = false) →
      (∀ d, m.getLast? = some d → isQuoteChar d = false) →
      stripQuotesList m = m) := by
  refine ⟨?_, ?_, ?_, ?_, ?_, ?_, ?_⟩
  · intro opts env name value r hen hc hr
    have h3 : truthy (some r) = true := by
      simpa [truthy] using hr
    simp [suggestValueRun, hen, hc, h3]
  · intro opts env name value r hen hc hs hr
    have h3 : truthy (some r) = true := by
      simpa [truthy] using hr
    simp [suggestValueRun, hen, hc, hs, h3]
  · intro ws₁ core ws₂ hw₁ hw₂ hh hl
    unfold jsTrimList
    rw [List.append_assoc, dropWhile_append_of_all _ hw₁]
    cases core with
    | nil =>
      have hws2 : List.dropWhile isJsWs ws₂ = [] := by
        simpa using dropWhile_append_of_all ([] : List Char) hw₂
      rw [List.nil_append, hws2]
      rfl
    | cons c cs =>
      have hstop : List.dropWhile isJsWs ((c :: cs) ++ ws₂) = (c :: cs) ++ ws₂ := by
        rw [List.cons_append]
        simp [List.dropWhile_cons, hh c rfl]
      rw [hstop, List.reverse_append,
        dropWhile_append_of_all _ (fun d hd => hw₂ d (List.mem_reverse.mp hd))]
      have hstop2 : List.dropWhile isJsWs (c :: cs).reverse = (c :: cs).reverse := by
        apply dropWhile_of_head_neg
        intro d hd
        exact hl d (by rwa [List.head?_reverse] at hd)
      rw [hstop2, List.reverse_reverse]
  · intro c₁ c₂ m h₁ h₂
    unfold stripQuotesList
    rw [dropLeadingQuote_of_quote _ h₁, dropTrailingQuote_append_quote _ h₂]
  · intro c m h₁ h₂
    unfold stripQuotesList
    rw [dropLeadingQuote_of_quote _ h₁, dropTrailingQuote_of_not_quote h₂]
  · intro c m h₁ h₂
    unfold stripQuotesList
    cases m with
    | nil => simp [dropLeadingQuote, h₁, dropTrailingQuote]
    | cons d ds =>
      have h3 : dropLeadingQuote ((d :: ds) ++ [c]) = (d :: ds) ++ [c] := by
        rw [List.cons_append]
        simp [dropLeadingQuote, h₂ d rfl]
      rw [h3, dropTrailingQuote_append_quote _ h₁]
  · intro m h₁ h₂
    unfold stripQuotesList
    rw [dropLeadingQuote_of_not_quote h₁, dropTrailingQuote_of_not_quote h₂]

/-- Witness for C9: a single pair of single quotes around `Jo` is removed,
the inner text kept. -/
theorem suggestion_postprocessing_witness :
    stripQuotesList (Char.ofNat 39 :: (['J', 'o'] ++ [Char.ofNat 39])) = ['J', 'o'] :=
  suggestion_postprocessing.2.2.2.1 (Char.ofNat 39) (Char.ofNat 39) ['J', 'o']
    (by decide) (by decide)

/-! ## C3 -/

/-- C3: autofill total-failure fallback.  When AI is enabled and both the
chrome branch and the server branch fail to produce an object (failure or
unusable data), autofill returns the mapping sending each requested field
`f` to `Example_` ++ `f` — keys exactly the requested fields — and the
placeholder is injective with the field name recoverable by dropping the
8-character prefix.  The function is total, so it never throws. -/
theorem autofill_total_failure_fallback (opts : AIAssistantOptions) (env : AIEnv)
    (fields : List String)
    (hen : opts.enabled = true)
    (hc : autofillChromeParse (env.chrome (autofillPrompt fields opts.formContext)) = none)
    (hs : autofillServerParse (env.serverAutofill fields opts.formContext) = none) :
    (autofillRun opts env fields).1 = fields.map (fun f => (f, "Example_" ++ f)) ∧
    (autofillRun opts env fields).1.map Prod.fst = fields ∧
    (∀ f ∈ fields, ((f, "Example_" ++ f)) ∈ (autofillRun opts env fields).1) ∧
    (∀ f : String, ("Example_" ++ f).data.drop 8 = f.data) ∧
    (∀ f g : String, ("Example_" ++ f) = ("Example_" ++ g) → f = g) := by
  have hmain : (autofillRun opts env fields).1 =
      fields.map (fun f => (f, "Example_" ++ f)) := by
    simp [autofillRun, hen, hc, hs]
  refine ⟨hmain, ?_, ?_, ?_, ?_⟩
  · rw [hmain, List.map_map]
    have hcomp : (Prod.fst ∘ fun f : String => (f, "Example_" ++ f)) = id := rfl
    rw [hcomp, List.map_id]
  · intro f hf
    rw [hmain]
    exact List.mem_map_of_mem _ hf
  · intro f
    rw [String.data_append, show (8 : Nat) = ("Example_".data).length from rfl]
    exact List.drop_left _ _
  · intro f g h
    have hd := congrArg String.data h
    rw [String.data_append, String.data_append] at hd
    exact String.ext (List.append_cancel_left hd)

/-- Witness for C3 at a concrete input: both providers fail for the field
list `name`, `email`. -/
theorem autofill_total_failure_fallback_witness :
    (autofillRun (AIAssistantOptions.mk true [] "http://localhost:3001") emptyEnv
        ["name", "email"]).1 =
      [("name", "Example_name"), ("email", "Example_email")] := by
  have h := autofill_total_failure_fallback
    (AIAssistantOptions.mk true [] "http://localhost:3001") emptyEnv
    ["name", "email"] rfl rfl rfl
  rw [h.1]
  rfl

/-! ## C1 -/

/-- Inserting into a list and then filtering to one priority class is the
same as consing first and then filtering: the insertion point of
`orderedInsert` only ever passes over strictly higher priorities. -/
theorem filter_orderedInsert_prio (k : Int) (a : AIProvider) :
    ∀ l : List AIProvider,
      (List.orderedInsert providerDescOrder a l).filter
          (fun p => decide (effPriority p = k)) =
        (a :: l).filter (fun p => decide (effPriority p = k))
  | [] => rfl
  | b :: bl => by
    rw [List.orderedInsert]
    by_cases h : providerDescOrder a b
    · rw [if_pos h]
    · rw [if_neg h]
      have hlt : effPriority a < effPriority b := not_le.mp h
      have hrec := filter_orderedInsert_prio k a bl
      by_cases ha : effPriority a = k
      · have hb : ¬ effPriority b = k := by
          intro hb
          rw [ha, hb] at hlt
          exact lt_irrefl k hlt
        simp [List.filter_cons, ha, hb, hrec]
      · by_cases hb : effPriority b = k <;> simp [List.filter_cons, ha, hb, hrec]

/-- Stability of the insertion sort on the priority preorder: each priority
class comes out in its original relative order. -/
theorem filter_insertionSort_prio (k : Int) :
    ∀ l : List AIProvider,
      (List.insertionSort providerDescOrder l).filter
          (fun p => decide (effPriority p = k)) =
        l.filter (fun p => decide (effPriority p = k))
  | [] => rfl
  | a :: l => by
    rw [List.insertionSort, filter_orderedInsert_prio k a, List.filter_cons,
      List.filter_cons, filter_insertionSort_prio k l]

/-- C1: provider resolution.  A non-empty explicit order is returned
unchanged, whatever providers it names.  Otherwise (no explicit order, or
an empty one) the result is the type projection of a list that is a
permutation of the descriptors with `enabled ≠ false`, is sorted by
effective priority descending (missing priority read as 0), and preserves
the original relative order within every priority class (stable ties).
The function is total, so an empty result raises no error. -/
theorem sortedProviders_resolution (providers : List AIProvider)
    (eo : Option (List AIProviderType)) :
    (∀ o, eo = some o → o ≠ [] → sortedProviders providers eo = o) ∧
    ((eo = none ∨ eo = some []) →
      ∃ l, sortedProviders providers eo = l.map AIProvider.type ∧
        List.Perm l (enabledFilter providers) ∧
        List.Sorted providerDescOrder l ∧
        ∀ k : Int, l.filter (fun p => decide (effPriority p = k)) =
          (enabledFilter providers).filter (fun p => decide (effPriority p = k))) := by
  constructor
  · intro o ho hne
    subst ho
    have hlen : o.length > 0 := List.length_pos.mpr hne
    simp [sortedProviders, hlen]
  · intro ho
    refine ⟨List.insertionSort providerDescOrder (enabledFilter providers), ?_, ?_, ?_, ?_⟩
    · rcases ho with h | h <;> subst h <;> rfl
    · exact List.perm_insertionSort _ _
    · exact List.sorted_insertionSort _ _
    · exact fun k => filter_insertionSort_prio k _

/-- Witness for C1: an explicit one-element order naming a provider type
absent from the provider list is still returned verbatim. -/
theorem sortedProviders_resolution_witness :
    sortedProviders [AIProvider.mk AIProviderType.chrome none none none none (some 1)]
        (some [AIProviderType.custom]) = [AIProviderType.custom] :=
  (sortedProviders_resolution
    [AIProvider.mk AIProviderType.chrome none none none none (some 1)]
    (some [AIProviderType.custom])).1 [AIProviderType.custom] rfl (by decide)

/-! ## C8 -/

/-- Extraction from a response wrapping one brace block in brace-free
prose: the greedy match returns exactly the block. -/
theorem extractBraceBlock_wrapped (pre inner post : List Char)
    (hpre : ∀ c ∈ pre, c.toNat ≠ 123 ∧ c.toNat ≠ 125)
    (hpost : ∀ c ∈ post, c.toNat ≠ 123 ∧ c.toNat ≠ 125) :
    extractBraceBlock (pre ++ (openBrace :: (inner ++ [closeBrace])) ++ post) =
      some (openBrace :: (inner ++ [closeBrace])) := by
  have h1 : (pre ++ (openBrace :: (inner ++ [closeBrace])) ++ post).dropWhile
      (fun c => !(c.toNat == 123)) =
      (openBrace :: (inner ++ [closeBrace])) ++ post := by
    rw [List.append_assoc,
      dropWhile_append_of_all _ (fun c hc => by simpa using (hpre c hc).1)]
    apply dropWhile_of_head_neg
    intro d hd
    rw [List.cons_append] at hd
    cases hd
    decide
  have hmidrev : (openBrace :: (inner ++ [closeBrace])).reverse =
      closeBrace :: (inner.reverse ++ [openBrace]) := by
    simp
  have h2 : ((openBrace :: (inner ++ [closeBrace])) ++ post).reverse.dropWhile
      (fun c => !(c.toNat == 125)) =
      (openBrace :: (inner ++ [closeBrace])).reverse := by
    rw [List.reverse_append,
      dropWhile_append_of_all _ (fun c hc => by
        simpa using (hpost c (List.mem_reverse.mp hc)).2)]
    apply dropWhile_of_head_neg
    intro d hd
    rw [hmidrev] at hd
    cases hd
    decide
  have hlen : 2 ≤ (openBrace :: (inner ++ [closeBrace])).length := by
    simp
  simp only [extractBraceBlock, h1, h2, List.reverse_reverse, hlen, if_true]

/-- The C8 scenario environment: the chrome model wraps a JSON object in
prose, the server never answers. -/
def c8Env : AIEnv :=
  AIEnv.mk
    (fun _ => some "Sure! \x7b\"name\":\"Alice\",\"email\":\"alice@x.com\"\x7d Hope that helps!")
    (fun _ _ _ => none) (fun _ _ => none)

/-- C8: autofill JSON extraction.  First conjunct: for a local response
wrapping a single brace block in brace-free prose, the greedy extraction
returns exactly that block (for a response wrapping one JSON object this is
the first balanced brace substring).  Second conjunct: on the spec's
scenario text the parsed result is exactly name ↦ Alice, email ↦
alice@x.com, obtained from the local attempt alone.  Third conjunct: when
extraction or parsing fails or yields no object, the run falls through to
one remote attempt — the trace is chrome then server, so the local model is
never retried. -/
theorem autofill_json_extraction :
    (∀ pre inner post : List Char,
      (∀ c ∈ pre, c.toNat ≠ 123 ∧ c.toNat ≠ 125) →
      (∀ c ∈ post, c.toNat ≠ 123 ∧ c.toNat ≠ 125) →
      extractBraceBlock (pre ++ (openBrace :: (inner ++ [closeBrace])) ++ post) =
        some (openBrace :: (inner ++ [closeBrace]))) ∧
    autofillRun (AIAssistantOptions.mk true [] "http://localhost:3001") c8Env
        ["name", "email"] =
      ([("name", "Alice"), ("email", "alice@x.com")], [ProviderAttempt.chrome]) ∧
    (∀ opts env fields, opts.enabled = true →
      autofillChromeParse (env.chrome (autofillPrompt fields opts.formContext)) = none →
      (autofillRun opts env fields).2 =
        [ProviderAttempt.chrome, ProviderAttempt.server]) := by
  refine ⟨extractBraceBlock_wrapped, by decide, ?_⟩
  intro opts env fields hen hc
  rw [autofillRun_trace]
  simp only [hen, hc]
  rcases autofillServerParse (env.serverAutofill fields opts.formContext) with _ | o <;> simp

/-- Witness for C8: the extraction lemma applied to a concrete wrapped
block. -/
theorem autofill_json_extraction_witness :
    extractBraceBlock (['S', ' '] ++ (openBrace :: (['a'] ++ [closeBrace])) ++ [' ']) =
      some (openBrace :: (['a'] ++ [closeBrace])) :=
  autofill_json_extraction.1 ['S', ' '] ['a'] [' '] (by decide) (by decide)

/-- filterMap over a one-element list is the optional image of that
element. -/
theorem filterMap_singleton {α β : Type} (g : α → Option β) (a : α) :
    List.filterMap g [a] = (g a).toList := by
  cases h : g a <;> simp [List.filterMap_cons, h]

/-! ## C5 -/

/-- Removing entries never breaks the at-most-one-per-field invariant. -/
theorem tableOK_fireDue (now : Nat) (s : SimState) (h : TableOK s) :
    TableOK (fireDue now s) :=
  h.sublist ((List.filter_sublist _).map TimerEntry.field)

/-- The blur handler preserves the invariant: it removes every entry of its
own field before appending the replacement. -/
theorem tableOK_handleBlur (ms now : Nat) (f v : String) (s : SimState)
    (h : TableOK s) : TableOK (handleBlur ms now f v s) := by
  unfold TableOK handleBlur clearField at *
  rw [List.map_append]
  apply List.Nodup.append
  · exact h.sublist ((List.filter_sublist _).map TimerEntry.field)
  · exact List.nodup_singleton _
  · intro x hx hx2
    rcases List.mem_map.mp hx with ⟨t, ht, hft⟩
    have hne : t.field ≠ f := of_decide_eq_true (List.mem_filter.mp ht).2
    have hxf : x = f := by simpa using hx2
    rw [hxf] at hft
    exact hne hft

/-- Every step of the simulator preserves the invariant. -/
theorem tableOK_stepEvent (ms : Nat) (s : SimState) (e : FormEvent)
    (h : TableOK s) : TableOK (stepEvent ms s e) := by
  cases e with
  | blur t f v => exact tableOK_handleBlur ms t f v _ (tableOK_fireDue t s h)
  | unmount t => simp [TableOK, stepEvent, handleUnmount]

theorem tableOK_foldl (ms : Nat) :
    ∀ (events : List FormEvent) (s : SimState),
      TableOK s → TableOK (events.foldl (stepEvent ms) s)
  | [], _, h => h
  | e :: es, s, h => tableOK_foldl ms es _ (tableOK_stepEvent ms s e h)

/-- A blur on field `f` leaves every other field's entries untouched. -/
theorem handleBlur_other_field (ms now : Nat) (f v g : String) (s : SimState)
    (hg : g ≠ f) :
    (handleBlur ms now f v s).timers.filter (fun t => t.field == g) =
      s.timers.filter (fun t => t.field == g) := by
  unfold handleBlur clearField
  rw [List.filter_append, List.filter_filter]
  have h2 : List.filter (fun t => (t.field == g) && decide (t.field ≠ f)) s.timers =
      List.filter (fun t => t.field == g) s.timers := by
    apply List.filter_congr
    intro t ht
    by_cases hfg : t.field = g
    · simp [hfg, hg]
    · simp [hfg]
  have h3 : List.filter (fun t => t.field == g) [TimerEntry.mk f (now + ms) v] = [] := by
    simp [Ne.symm hg]
  rw [h2, h3, List.append_nil]

/-- A blur on field `f` cancels any pending entry for `f` and replaces it
with exactly the freshly scheduled one. -/
theorem handleBlur_own_field (ms now : Nat) (f v : String) (s : SimState) :
    (handleBlur ms now f v s).timers.filter (fun t => t.field == f) =
      [TimerEntry.mk f (now + ms) v] := by
  unfold handleBlur clearField
  rw [List.filter_append, List.filter_filter]
  have h1 : List.filter (fun t => (t.field == f) && decide (t.field ≠ f)) s.timers = [] := by
    apply List.filter_eq_nil_iff.mpr
    intro t ht
    by_cases hf : t.field = f <;> simp [hf]
  rw [h1, List.nil_append]
  simp

/-- C5: debounce timer-table invariant.  Every simulator step preserves the
at-most-one-pending-timer-per-field invariant, so it holds at every instant
of every run from a fresh session.  A blur on a field removes that field's
pending entry and replaces it with the newly scheduled one, while leaving
every other field's entries exactly as they were; the unmount teardown
empties the whole table without appending any call (no timer fires). -/
theorem debounce_timer_table_invariant :
    (∀ ms s e, TableOK s → TableOK (stepEvent ms s e)) ∧
    (∀ ms events, TableOK (runEvents ms events)) ∧
    (∀ ms now f v s,
      (handleBlur ms now f v s).timers.filter (fun t => t.field == f) =
        [TimerEntry.mk f (now + ms) v]) ∧
    (∀ ms now f v g s, g ≠ f →
      (handleBlur ms now f v s).timers.filter (fun t => t.field == g) =
        s.timers.filter (fun t => t.field == g)) ∧
    (∀ s, (handleUnmount s).timers = [] ∧ (handleUnmount s).calls = s.calls) := by
  refine ⟨tableOK_stepEvent, ?_, handleBlur_own_field,
    fun ms now f v g s hg => handleBlur_other_field ms now f v g s hg,
    fun s => ⟨rfl, rfl⟩⟩
  intro ms events
  exact tableOK_foldl ms events initState (List.nodup_nil)

/-- Witness for C5: a blur on field `a` leaves field `b`'s pending timer in
place. -/
theorem debounce_timer_table_invariant_witness :
    (handleBlur 800 0 "a" "v" (SimState.mk [TimerEntry.mk "b" 5 "x"] [])).timers.filter
        (fun t => t.field == "b") = [TimerEntry.mk "b" 5 "x"] := by
  have h := debounce_timer_table_invariant.2.2.2.1 800 0 "a" "v" "b"
    (SimState.mk [TimerEntry.mk "b" 5 "x"] []) (by decide)
  rw [h]
  rfl

/-! ## C4 -/

/-- Processing a burst of blur events on one field, each arriving before
the previous quiet period elapses, keeps exactly one pending timer: the one
scheduled by the latest event.  No timer fires during the burst. -/
theorem burst_foldl (ms : Nat) (f : String) :
    ∀ (cs : List (Nat × String)) (t₀ : Nat) (v₀ : String)
      (acc : List (Nat × String × String)),
      List.Chain (fun a b : Nat × String => a.1 ≤ b.1 ∧ b.1 < a.1 + ms) (t₀, v₀) cs →
      List.foldl (stepEvent ms) (SimState.mk [TimerEntry.mk f (t₀ + ms) v₀] acc)
          (cs.map (fun p => FormEvent.blur p.1 f p.2)) =
        SimState.mk
          [TimerEntry.mk f ((cs.getLastD (t₀, v₀)).1 + ms) (cs.getLastD (t₀, v₀)).2] acc
  | [], _, _, _, _ => rfl
  | (t₁, v₁) :: cs, t₀, v₀, acc, hchain => by
    rcases List.chain_cons.mp hchain with ⟨⟨hle, hlt⟩, hchain2⟩
    have hnl : ¬ (t₀ + ms < t₁) := not_lt.mpr (le_of_lt hlt)
    have hstep : stepEvent ms (SimState.mk [TimerEntry.mk f (t₀ + ms) v₀] acc)
        (FormEvent.blur t₁ f v₁) = SimState.mk [TimerEntry.mk f (t₁ + ms) v₁] acc := by
      simp [stepEvent, fireDue, handleBlur, clearField, hnl, List.filter_cons]
    rw [List.map_cons, List.foldl_cons, hstep,
      burst_foldl ms f cs t₁ v₁ acc hchain2, List.getLastD_cons]

/-- C4 (amended): debounce coalescing.  A burst of blur events on one field,
each arriving within less than the quiet period after the previous one,
produces at most one Suggestion Engine invocation, wholly determined by the
last event: exactly one call — fired one quiet period after the last event,
with the last event's value — when that value is non-empty and not
whitespace-only, and no call otherwise (the callback skips blank values). -/
theorem debounce_burst_coalesces (ms : Nat) (f : String)
    (first : Nat × String) (rest : List (Nat × String))
    (hchain : List.Chain (fun a b : Nat × String => a.1 ≤ b.1 ∧ b.1 < a.1 + ms)
      first rest) :
    (runToEnd ms ((first :: rest).map (fun p => FormEvent.blur p.1 f p.2))).calls =
      (timerDispatch (TimerEntry.mk f ((rest.getLastD first).1 + ms)
        (rest.getLastD first).2)).toList ∧
    ((rest.getLastD first).2 ≠ "" →
      String.mk (jsTrimList (rest.getLastD first).2.data) ≠ "" →
      (runToEnd ms ((first :: rest).map (fun p => FormEvent.blur p.1 f p.2))).calls =
        [((rest.getLastD first).1 + ms, f, (rest.getLastD first).2)]) := by
  rcases first with ⟨t₀, v₀⟩
  have hrun : runEvents ms (((t₀, v₀) :: rest).map (fun p => FormEvent.blur p.1 f p.2)) =
      SimState.mk
        [TimerEntry.mk f ((rest.getLastD (t₀, v₀)).1 + ms) (rest.getLastD (t₀, v₀)).2] [] := by
    unfold runEvents
    rw [List.map_cons, List.foldl_cons,
      show stepEvent ms initState (FormEvent.blur t₀ f v₀) =
        SimState.mk [TimerEntry.mk f (t₀ + ms) v₀] [] from rfl]
    exact burst_foldl ms f rest t₀ v₀ [] hchain
  have hmain : (runToEnd ms (((t₀, v₀) :: rest).map (fun p => FormEvent.blur p.1 f p.2))).calls =
      (timerDispatch (TimerEntry.mk f ((rest.getLastD (t₀, v₀)).1 + ms)
        (rest.getLastD (t₀, v₀)).2)).toList := by
    unfold runToEnd
    rw [hrun]
    show [] ++ List.filterMap timerDispatch (List.insertionSort timerFireOrder
      [TimerEntry.mk f ((rest.getLastD (t₀, v₀)).1 + ms) (rest.getLastD (t₀, v₀)).2]) = _
    rw [show List.insertionSort timerFireOrder
        [TimerEntry.mk f ((rest.getLastD (t₀, v₀)).1 + ms) (rest.getLastD (t₀, v₀)).2] =
        [TimerEntry.mk f ((rest.getLastD (t₀, v₀)).1 + ms) (rest.getLastD (t₀, v₀)).2]
        from rfl,
      filterMap_singleton, List.nil_append]
  refine ⟨hmain, fun hv1 hv2 => ?_⟩
  rw [hmain]
  have hcond : (((rest.getLastD (t₀, v₀)).2 != "") &&
      (String.mk (jsTrimList (rest.getLastD (t₀, v₀)).2.data) != "")) = true := by
    rw [Bool.and_eq_true]
    exact ⟨bne_iff_ne.mpr hv1, bne_iff_ne.mpr hv2⟩
  unfold timerDispatch
  rw [if_pos hcond]
  rfl

/-- C4 counterexample: the claim as stated quantifies over every burst, but
a burst whose last blur value is whitespace-only produces zero Suggestion
Engine invocations, not exactly one: quiet period 800, blur `Jo` at t=0,
blur of a single space at t=300 — no call ever fires. -/
theorem debounce_burst_blank_counterexample :
    (runToEnd 800 [FormEvent.blur 0 "name" "Jo",
      FormEvent.blur 300 "name" " "]).calls.length ≠ 1 := by
  decide

/-- Witness for C4 at the spec's concrete scenario: quiet period 800, blur
`Jo` at t=0, blur `John` at t=300, no further events — exactly one call, at
t=1100, with value `John`. -/
theorem debounce_burst_coalesces_witness :
    (runToEnd 800 [FormEvent.blur 0 "name" "Jo",
      FormEvent.blur 300 "name" "John"]).calls = [(1100, "name", "John")] :=
  ((debounce_burst_coalesces 800 "name" (0, "Jo") [(300, "John")]
      (List.chain_cons.mpr ⟨⟨by decide, by decide⟩, List.Chain.nil⟩)).2
    (by decide) (by decide)).trans (by decide)

end ReactHookFormAI
